import Mathlib

/-!
Shallow embedding of the raw-image-viewer decode engine.

Sources embedded here:
- `src/app/pixel_format.rs`: `PixelFormat`, `Endian`, `bytes_per_pixel`,
  `valid_order`, `rgba_order`, `rgb_order`.
- `src/app/image_format.rs`: `Bpp` (palette index bit depth) and its
  `color_count`, plus the string-typed palette offset / tile dimensions.
- `src/app/image.rs`: `Image::linear`, `Image::indexed`, `Image::tiled`
  and the shared pixel decoder `fill_rgba`.

Modelling conventions:
- A byte is a `Nat`; source files are `List Nat`. Real sources only hold
  values below 256; the field-extraction masks make decoding insensitive
  to larger values, so no global bound is imposed.
- Machine arithmetic (`u8`/`u16`/`usize`) is carried out in `Nat`. The
  theorem for the safety claim shows every channel computation stays at
  or below 255, so unsigned wrap-around never occurs on these paths and
  the `Nat` embedding agrees with the Rust semantics.
- `File::seek(Start(o))` never fails for an in-range `usize`, and
  `read_exact` fails exactly when the file holds fewer than the requested
  number of bytes past the offset; `read_exact` is modelled accordingly,
  with the error string the code builds from `ErrorKind::UnexpectedEof`.
- Rust's mutation loops in `image.rs` write each output byte exactly once,
  in strictly increasing destination order, into a buffer preallocated at
  the exact final size; each such loop is therefore embedded as the
  equivalent `List.flatMap` over the loop's iteration sequence.
- The relevant fields of the GUI `App` state (`pixel_format.selected`,
  `pixel_format.component_order`, `pixel_format.endian`, `ignore_alpha`,
  `palette.offset`, `palette.bpp`, `tile.width`, `tile.height`) are
  flattened into one `App` structure; user-typed strings are `List Char`.
- The decoders return the RGBA byte buffer itself rather than the iced
  `Handle` wrapper built from it (`Handle::from_rgba` is out of scope).
-/

/-- Pixel formats of `src/app/pixel_format.rs`. -/
inductive PixelFormat
  | RGBA8888
  | RGB888
  | RGBA4444
  | RGBA5551
  | RGB565
  | R8
  | G8
  | B8
  | L8
deriving DecidableEq, Repr

/-- Byte-order choice for the 2-byte packed formats. -/
inductive Endian
  | LE
  | BE
deriving DecidableEq, Repr

/-- Palette index bit depth (`src/app/image_format.rs`). -/
inductive Bpp
  | Bpp4
  | Bpp8
deriving DecidableEq, Repr

/-- Number of palette entries for an index bit depth. -/
def Bpp.color_count : Bpp → Nat
  | .Bpp4 => 16
  | .Bpp8 => 256

/-- Bytes of source data per pixel for each format. -/
def PixelFormat.bytes_per_pixel : PixelFormat → Nat
  | .RGBA8888 => 4
  | .RGB888 => 3
  | .RGBA4444 | .RGBA5551 | .RGB565 => 2
  | .R8 | .G8 | .B8 | .L8 => 1

/-- Component-order validation (`PixelFormat::valid_order`): lower-case the
user string, then require the format's channel count as length and every
required channel letter to occur; single-channel formats accept anything
with an empty mapping. -/
def PixelFormat.valid_order (fmt : PixelFormat) (order : List Char) : Option (List Char) :=
  let order := order.map Char.toLower
  match fmt with
  | .RGBA8888 | .RGBA4444 | .RGBA5551 =>
    if order.length == 4 && (['r', 'g', 'b', 'a'].all fun chr => order.contains chr) then
      some order
    else
      none
  | .RGB888 | .RGB565 =>
    if order.length == 3 && (['r', 'g', 'b'].all fun chr => order.contains chr) then
      some order
    else
      none
  | _ => some []

/-- Position of each of r, g, b, a in a validated order string
(`pixel_format.rs::rgba_order`). -/
def rgba_order (order : List Char) : Except String (Nat × Nat × Nat × Nat) :=
  match order.findIdx? (· == 'r'), order.findIdx? (· == 'g'),
        order.findIdx? (· == 'b'), order.findIdx? (· == 'a') with
  | some r, some g, some b, some a => .ok (r, g, b, a)
  | _, _, _, _ => .error "invalid rgba order"

/-- Position of each of r, g, b in a validated order string
(`pixel_format.rs::rgb_order`). -/
def rgb_order (order : List Char) : Except String (Nat × Nat × Nat) :=
  match order.findIdx? (· == 'r'), order.findIdx? (· == 'g'),
        order.findIdx? (· == 'b') with
  | some r, some g, some b => .ok (r, g, b)
  | _, _, _ => .error "invalid rgb order"

/-- Decode-relevant slice of the GUI state (`App` in `src/app.rs` together
with `PixelFormatState`, `PaletteInfo` and `TileInfo`). -/
structure App where
  pixel_format : PixelFormat
  component_order : List Char
  endian : Endian
  ignore_alpha : Bool
  palette_offset : List Char
  palette_bpp : Bpp
  tile_width : List Char
  tile_height : List Char

/-- Assembly of a 16-bit word from one 2-byte pixel chunk
(`u16::from_le_bytes` / `u16::from_be_bytes` in `fill_rgba`). -/
def pixel_word (endian : Endian) (chunk : List Nat) : Nat :=
  match endian with
  | .LE => chunk.getD 0 0 + 256 * chunk.getD 1 0
  | .BE => 256 * chunk.getD 0 0 + chunk.getD 1 0

/-- Channel expansion of one RGBA4444 word (the `color` array computed in
the `PixelFormat::RGBA4444` arm of `fill_rgba`). -/
def decode4444 (pixel : Nat) : List Nat :=
  [(pixel &&& 0xF) * 17,
   ((pixel &&& 0xF0) >>> 4) * 17,
   ((pixel &&& 0xF00) >>> 8) * 17,
   ((pixel &&& 0xF000) >>> 12) * 17]

/-- Channel expansion of one RGBA5551 word (the `color` array computed in
the `PixelFormat::RGBA5551` arm of `fill_rgba`, after the `+= /32` step). -/
def decode5551 (pixel : Nat) : List Nat :=
  let c0 := (pixel &&& 0x1F) * 8
  let c1 := ((pixel &&& 0x3E0) >>> 5) * 8
  let c2 := ((pixel &&& 0x7C00) >>> 10) * 8
  let c3 := ((pixel &&& 0x8000) >>> 15) * 255
  [c0 + c0 / 32, c1 + c1 / 32, c2 + c2 / 32, c3]

/-- Channel expansion of one RGB565 word (the `color` array computed in
the `PixelFormat::RGB565` arm of `fill_rgba`, after the rounding step). -/
def decode565 (pixel : Nat) : List Nat :=
  let c0 := (pixel &&& 0x1F) * 8
  let c1 := ((pixel &&& 0x7E0) >>> 5) * 4
  let c2 := ((pixel &&& 0xF800) >>> 11) * 8
  [c0 + c0 / 32, c1 + c1 / 64, c2 + c2 / 32]

/-- Shared pixel decoder `fill_rgba` of `src/app/image.rs`: validate the
component order, then translate each `bytes_per_pixel`-sized chunk into
its 4 RGBA bytes. Each loop writes bytes `i*4 .. i*4+3` for chunk `i`
(single-channel formats leave the zero-initialised remaining bytes), so
the buffer is exactly the concatenation of the per-chunk 4-byte groups. -/
def fill_rgba (app : App) (chunks : List (List Nat)) : Except String (List Nat) :=
  match app.pixel_format.valid_order app.component_order with
  | none => .error "invalid component order"
  | some order =>
    match app.pixel_format with
    | .RGBA8888 =>
      match rgba_order order with
      | .error e => .error e
      | .ok (r_i, g_i, b_i, a_i) =>
        .ok (chunks.flatMap fun chunk =>
          [chunk.getD r_i 0, chunk.getD g_i 0, chunk.getD b_i 0,
           if app.ignore_alpha then 255 else chunk.getD a_i 0])
    | .RGB888 =>
      match rgb_order order with
      | .error e => .error e
      | .ok (r_i, g_i, b_i) =>
        .ok (chunks.flatMap fun chunk =>
          [chunk.getD r_i 0, chunk.getD g_i 0, chunk.getD b_i 0, 255])
    | .RGBA4444 =>
      match rgba_order order with
      | .error e => .error e
      | .ok (r_i, g_i, b_i, a_i) =>
        .ok (chunks.flatMap fun chunk =>
          let color := decode4444 (pixel_word app.endian chunk)
          [color.getD r_i 0, color.getD g_i 0, color.getD b_i 0,
           if app.ignore_alpha then 255 else color.getD a_i 0])
    | .RGBA5551 =>
      match rgba_order order with
      | .error e => .error e
      | .ok (r_i, g_i, b_i, a_i) =>
        .ok (chunks.flatMap fun chunk =>
          let color := decode5551 (pixel_word app.endian chunk)
          [color.getD r_i 0, color.getD g_i 0, color.getD b_i 0,
           if app.ignore_alpha then 255 else color.getD a_i 0])
    | .RGB565 =>
      match rgb_order order with
      | .error e => .error e
      | .ok (r_i, g_i, b_i) =>
        .ok (chunks.flatMap fun chunk =>
          let color := decode565 (pixel_word app.endian chunk)
          [color.getD r_i 0, color.getD g_i 0, color.getD b_i 0, 255])
    | .R8 =>
      .ok (chunks.flatMap fun chunk => [chunk.getD 0 0, 0, 0, 255])
    | .G8 =>
      .ok (chunks.flatMap fun chunk => [0, chunk.getD 0 0, 0, 255])
    | .B8 =>
      .ok (chunks.flatMap fun chunk => [0, 0, chunk.getD 0 0, 255])
    | .L8 =>
      .ok (chunks.flatMap fun chunk =>
        [chunk.getD 0 0, chunk.getD 0 0, chunk.getD 0 0, 255])

/-- Parse of a user-typed numeric field (`str::parse::<usize>`): optional
leading plus sign, then at least one ASCII digit. -/
def parse_usize (s : List Char) : Option Nat :=
  let digits := fun (cs : List Char) =>
    if cs.isEmpty then none
    else if cs.all Char.isDigit then
      some (cs.foldl (fun acc c => acc * 10 + (c.toNat - 48)) 0)
    else none
  match s with
  | '+' :: rest => digits rest
  | _ => digits s

/-- Positioned exact read (`seek(Start(offset))` followed by `read_exact`
into a buffer of length `len`): succeeds with exactly `len` bytes iff the
file holds them, otherwise fails with the caller's message. -/
def read_exact (file : List Nat) (offset len : Nat) (msg : String) : Except String (List Nat) :=
  if offset + len ≤ file.length then .ok ((file.drop offset).take len)
  else .error msg

/-- Rust `slice::chunks_exact n`: the maximal list of consecutive
`n`-sized chunks, discarding any remainder. -/
def chunks_exact (n : Nat) (l : List Nat) : List (List Nat) :=
  (List.range (l.length / n)).map fun i => (l.drop (i * n)).take n

/-- Copy of 4 consecutive bytes starting at `s`
(the `clone_from_slice`/`copy_from_slice` of 4-byte groups in `image.rs`). -/
def slice4 (l : List Nat) (s : Nat) : List Nat :=
  (l.drop s).take 4

/-- Linear decode `Image::linear`: read `w*h*bytes_per_pixel` bytes at
`offset` and translate them chunk-wise through `fill_rgba`. -/
def Image.linear (app : App) (file : List Nat) (w h offset : Nat) : Except String (List Nat) :=
  let bytes_per_pixel := app.pixel_format.bytes_per_pixel
  match read_exact file offset (w * h * bytes_per_pixel)
      "failed to fill pixel data buffer. unexpected end of file" with
  | .error e => .error e
  | .ok pixel_data => fill_rgba app (chunks_exact bytes_per_pixel pixel_data)

/-- Indexed decode `Image::indexed`: parse the palette offset, read and
decode the color table, read the index stream, and expand each index
(two per byte at 4 bpp, low nibble first) into its 4-byte table entry.
At 4 bpp the loop writes 8 bytes per source byte; when `w*h` is odd the
final 4 zero-initialised bytes of the canvas are never written. -/
def Image.indexed (app : App) (file : List Nat) (w h offset : Nat) : Except String (List Nat) :=
  match parse_usize app.palette_offset with
  | none => .error "palette offset is empty"
  | some palette_offset =>
    let color_count := app.palette_bpp.color_count
    let bytes_per_color := app.pixel_format.bytes_per_pixel
    match read_exact file palette_offset (color_count * bytes_per_color)
        "failed to fill palette data buffer. unexpected end of file" with
    | .error e => .error e
    | .ok palette_data =>
      match fill_rgba app (chunks_exact bytes_per_color palette_data) with
      | .error e => .error e
      | .ok palette_rgba =>
        let pixel_len :=
          match app.palette_bpp with
          | .Bpp4 => w * h / 2
          | .Bpp8 => w * h
        match read_exact file offset pixel_len
            "failed to fill pixel data buffer. unexpected end of file" with
        | .error e => .error e
        | .ok pixel_data =>
          match app.palette_bpp with
          | .Bpp4 =>
            .ok ((pixel_data.flatMap fun pixels =>
                slice4 palette_rgba ((pixels &&& 0xF) * 4) ++
                slice4 palette_rgba (((pixels &&& 0xF0) >>> 4) * 4)) ++
              List.replicate (w * h * 4 - w * h / 2 * 8) 0)
          | .Bpp8 =>
            .ok (pixel_data.flatMap fun pixel => slice4 palette_rgba (pixel * 4))

/-- Per-tile decode loop of `Image::tiled`: each tile's byte chunk goes
through `fill_rgba`, stopping at the first error. -/
def decode_tiles (app : App) (tile_chunks : List (List Nat)) : Except String (List (List Nat)) :=
  match tile_chunks with
  | [] => .ok []
  | pixel_data :: rest =>
    match fill_rgba app (chunks_exact app.pixel_format.bytes_per_pixel pixel_data) with
    | .error e => .error e
    | .ok tile_rgba =>
      match decode_tiles app rest with
      | .error e => .error e
      | .ok tiles => .ok (tile_rgba :: tiles)

/-- Tiled decode `Image::tiled`: parse the tile dimensions, check
divisibility, read the whole tile stream, decode each tile independently,
then scatter tile pixels to canvas positions. The scatter loop writes the
4 bytes of canvas pixel `(x, y)` at `(y*w + x)*4`, in increasing order. -/
def Image.tiled (app : App) (file : List Nat) (w h offset : Nat) : Except String (List Nat) :=
  match parse_usize app.tile_width with
  | none => .error "tile width is empty"
  | some tile_w =>
    match parse_usize app.tile_height with
    | none => .error "tile height is empty"
    | some tile_h =>
      if w % tile_w ≠ 0 then .error "width is not divisible by tile width"
      else if h % tile_h ≠ 0 then .error "height is not divisible by tile height"
      else
        let tile_row := w / tile_w
        let tile_col := h / tile_h
        let tile_count := tile_row * tile_col
        let pixel_count := tile_w * tile_h
        let bytes_per_pixel := app.pixel_format.bytes_per_pixel
        match read_exact file offset (pixel_count * bytes_per_pixel * tile_count)
            "failed to fill pixel data buffer. unexpected end of file" with
        | .error e => .error e
        | .ok pixel_datas =>
          match decode_tiles app (chunks_exact (pixel_count * bytes_per_pixel) pixel_datas) with
          | .error e => .error e
          | .ok tiles =>
            .ok ((List.range h).flatMap fun y =>
              (List.range w).flatMap fun x =>
                slice4 (tiles.getD (y / tile_h * tile_row + x / tile_w) [])
                  ((y % tile_h * tile_w + x % tile_w) * 4))

/-! Helper lemmas about the list combinators used by the embedding. -/

/-- Length of a flatMap whose pieces all have length `k`. -/
theorem length_flatMap_const {α β : Type} (l : List α) (f : α → List β) (k : Nat)
    (hf : ∀ a ∈ l, (f a).length = k) : (l.flatMap f).length = k * l.length := by
  induction l with
  | nil => simp
  | cons hd tl ih =>
    rw [List.flatMap_cons, List.length_append, hf hd (List.mem_cons_self hd tl),
      ih (fun a ha => hf a (List.mem_cons_of_mem hd ha))]
    simp [Nat.mul_succ]
    omega

/-- Concatenating the `n` consecutive `L`-sized slices of a list recovers
its first `n * L` elements. -/
theorem flatMap_slices {α : Type} (u : List α) (n L : Nat) (h : n * L ≤ u.length) :
    ((List.range n).flatMap fun i => (u.drop (i * L)).take L) = u.take (n * L) := by
  induction n with
  | zero => simp
  | succ m ih =>
    rw [List.range_succ, List.flatMap_append]
    rw [ih (by nlinarith)]
    simp only [List.flatMap_cons, List.flatMap_nil, List.append_nil]
    rw [show (m + 1) * L = m * L + L by ring, List.take_add]

/-- Element lookup inside a flatMap over `List.range` with fixed piece
length. -/
theorem getD_flatMap_range {α : Type} (f : Nat → List α) (L n i j : Nat) (d : α)
    (hf : ∀ k, k < n → (f k).length = L) (hi : i < n) (hj : j < L) :
    ((List.range n).flatMap f).getD (i * L + j) d = (f i).getD j d := by
  induction n with
  | zero => omega
  | succ m ih =>
    have hlen : ((List.range m).flatMap f).length = L * m := by
      rw [length_flatMap_const (List.range m) f L
        (fun a ha => hf a (by have := List.mem_range.mp ha; omega))]
      simp
    rw [List.range_succ, List.flatMap_append]
    by_cases him : i < m
    · rw [List.getD_append _ _ _ _ (by rw [hlen]; nlinarith)]
      exact ih (fun k hk => hf k (by omega)) him
    · have hieq : i = m := by omega
      subst hieq
      rw [List.getD_append_right _ _ _ _ (by rw [hlen]; nlinarith)]
      rw [hlen]
      have : i * L + j - L * i = j := by ring_nf; omega
      rw [this]
      simp

/-- Element lookup inside a flatMap over an arbitrary list with fixed
piece length. -/
theorem getD_flatMap_fixed {α β : Type} (l : List β) (f : β → List α) (L : Nat) (d : α) (db : β)
    (hf : ∀ b ∈ l, (f b).length = L) (i j : Nat) (hi : i < l.length) (hj : j < L) :
    (l.flatMap f).getD (i * L + j) d = (f (l.getD i db)).getD j d := by
  induction l generalizing i with
  | nil => simp at hi
  | cons hd tl ih =>
    rw [List.flatMap_cons]
    cases i with
    | zero =>
      rw [List.getD_append _ _ _ _ (by rw [hf hd (List.mem_cons_self hd tl)]; simpa using hj)]
      simp
    | succ i' =>
      rw [List.getD_append_right _ _ _ _
        (by rw [hf hd (List.mem_cons_self hd tl)]; nlinarith)]
      rw [hf hd (List.mem_cons_self hd tl)]
      have harith : (i' + 1) * L + j - L = i' * L + j := by ring_nf; omega
      rw [harith]
      have := ih (fun b hb => hf b (List.mem_cons_of_mem hd hb)) i' (by simpa using hi)
      simpa using this

/-- Number of chunks produced by `chunks_exact`. -/
theorem chunks_exact_length (n : Nat) (l : List Nat) :
    (chunks_exact n l).length = l.length / n := by
  simp [chunks_exact]

/-- Index `i*n + n` stays within the list when `i` indexes a full chunk. -/
theorem chunk_index_le (n : Nat) (l : List Nat) (i : Nat) (hi : i < l.length / n) :
    i * n + n ≤ l.length := by
  have h1 : (i + 1) * n ≤ l.length / n * n := Nat.mul_le_mul_right n hi
  have h2 : l.length / n * n ≤ l.length := Nat.div_mul_le_self l.length n
  nlinarith

/-- The `i`-th chunk of `chunks_exact`. -/
theorem chunks_exact_getD (n : Nat) (l : List Nat) (i : Nat) (hi : i < l.length / n) :
    (chunks_exact n l).getD i [] = (l.drop (i * n)).take n := by
  unfold chunks_exact
  rw [List.getD_eq_getElem?_getD, List.getElem?_map]
  simp [List.getElem?_range, hi]

/-- Every chunk of `chunks_exact` has length `n`. -/
theorem chunks_exact_chunk_length (n : Nat) (l : List Nat) (i : Nat) (hi : i < l.length / n) :
    ((chunks_exact n l).getD i []).length = n := by
  rw [chunks_exact_getD n l i hi]
  have := chunk_index_le n l i hi
  simp
  omega

/-- Every member of `chunks_exact n l` has length `n`. -/
theorem chunks_exact_mem_length (n : Nat) (l : List Nat) (c : List Nat)
    (hc : c ∈ chunks_exact n l) : c.length = n := by
  unfold chunks_exact at hc
  obtain ⟨i, hi, rfl⟩ := List.mem_map.mp hc
  have hi' := List.mem_range.mp hi
  have := chunk_index_le n l i hi'
  simp
  omega

/-- Flattening the chunks recovers the list when the chunk size divides
its length. -/
theorem chunks_exact_flatten (n : Nat) (l : List Nat) (h : l.length % n = 0) :
    (chunks_exact n l).flatten = l := by
  unfold chunks_exact
  have hfm : ((List.range (l.length / n)).map fun i => (l.drop (i * n)).take n).flatten
      = (List.range (l.length / n)).flatMap fun i => (l.drop (i * n)).take n := by
    simp [List.flatMap_def]
  rw [hfm, flatMap_slices l (l.length / n) n (Nat.div_mul_le_self l.length n)]
  rw [Nat.div_mul_cancel (Nat.dvd_of_mod_eq_zero h), List.take_length]

/-! Structural lemmas about the decoder functions. -/

/-- Errors of `rgba_order` carry only its one message. -/
theorem rgba_order_error (o : List Char) (s : String) (h : rgba_order o = .error s) :
    s = "invalid rgba order" := by
  unfold rgba_order at h
  split at h <;> simp_all

/-- Errors of `rgb_order` carry only its one message. -/
theorem rgb_order_error (o : List Char) (s : String) (h : rgb_order o = .error s) :
    s = "invalid rgb order" := by
  unfold rgb_order at h
  split at h <;> simp_all

/-- Every error of `fill_rgba` is one of its three order-related
messages. -/
theorem fill_rgba_error_mem (app : App) (chunks : List (List Nat)) (s : String)
    (h : fill_rgba app chunks = .error s) :
    s = "invalid component order" ∨ s = "invalid rgba order" ∨ s = "invalid rgb order" := by
  unfold fill_rgba at h
  split at h
  · simp at h
    exact Or.inl h.symm
  · split at h <;> try split at h
    all_goals simp_all
    all_goals
      first
        | exact Or.inr (Or.inl (rgba_order_error _ _ (by assumption)))
        | exact Or.inr (Or.inr (rgb_order_error _ _ (by assumption)))

/-- A successful `fill_rgba` produces exactly 4 bytes per chunk. -/
theorem fill_rgba_ok_length (app : App) (chunks : List (List Nat)) (out : List Nat)
    (h : fill_rgba app chunks = .ok out) : out.length = 4 * chunks.length := by
  unfold fill_rgba at h
  split at h
  · simp at h
  · split at h <;> try split at h
    all_goals simp at h
    all_goals subst h
    all_goals exact length_flatMap_const chunks _ 4 (fun a ha => by simp)

/-- A successful `decode_tiles` produces one tile per chunk. -/
theorem decode_tiles_ok_length (app : App) (cs ts : List (List Nat))
    (h : decode_tiles app cs = .ok ts) : ts.length = cs.length := by
  induction cs generalizing ts with
  | nil =>
    unfold decode_tiles at h
    injection h with h'
    subst h'
    rfl
  | cons c rest ih =>
    unfold decode_tiles at h
    split at h
    · simp at h
    · split at h
      · simp at h
      · rename_i tile hfill tiles hrest
        injection h with h'
        subst h'
        simp [ih tiles hrest]

/-- Tile `i` of a successful `decode_tiles` run is the `fill_rgba` result
of chunk `i`. -/
theorem decode_tiles_ok_get (app : App) (cs ts : List (List Nat))
    (h : decode_tiles app cs = .ok ts) (i : Nat) (hi : i < cs.length) :
    fill_rgba app (chunks_exact app.pixel_format.bytes_per_pixel (cs.getD i [])) =
      .ok (ts.getD i []) := by
  induction cs generalizing ts i with
  | nil => simp at hi
  | cons c rest ih =>
    unfold decode_tiles at h
    cases hfill : fill_rgba app (chunks_exact app.pixel_format.bytes_per_pixel c) with
    | error e =>
      rw [hfill] at h
      simp at h
    | ok tile =>
      rw [hfill] at h
      cases hrest : decode_tiles app rest with
      | error e =>
        rw [hrest] at h
        simp at h
      | ok tiles =>
        rw [hrest] at h
        simp at h
        subst h
        cases i with
        | zero => simpa using hfill
        | succ i' =>
          simpa using ih tiles hrest i' (by simpa using hi)

/-! Bitwise helpers relating the mask-and-shift extraction of the code to
plain division and remainder. -/

/-- Right shift distributes over bitwise and. -/
theorem and_shiftRight_distrib (x y n : Nat) : (x &&& y) >>> n = x >>> n &&& y >>> n := by
  apply Nat.eq_of_testBit_eq
  intro i
  simp [Nat.testBit_shiftRight, Nat.testBit_and]

/-- Extracting a `w`-bit field at bit offset `n` by mask and shift equals
division and remainder. -/
theorem field_extract (x n w : Nat) :
    (x &&& ((2 ^ w - 1) <<< n)) >>> n = x / 2 ^ n % 2 ^ w := by
  rw [and_shiftRight_distrib]
  have h1 : ((2 ^ w - 1) <<< n) >>> n = 2 ^ w - 1 := by
    rw [Nat.shiftLeft_eq, Nat.shiftRight_eq_div_pow]
    exact Nat.mul_div_cancel _ (pow_pos (by norm_num) n)
  rw [h1, Nat.and_pow_two_sub_one_eq_mod, Nat.shiftRight_eq_div_pow]

/-- Division-and-remainder form of the RGBA4444 channel expansion. -/
theorem decode4444_eq (pixel : Nat) : decode4444 pixel =
    [pixel % 16 * 17, pixel / 16 % 16 * 17, pixel / 256 % 16 * 17, pixel / 4096 % 16 * 17] := by
  have h0 : pixel &&& 0xF = pixel % 16 := by
    simpa using Nat.and_pow_two_sub_one_eq_mod pixel 4
  have h1 := field_extract pixel 4 4
  rw [show ((2:Nat) ^ 4 - 1) <<< 4 = 240 from by decide, show (2:Nat) ^ 4 = 16 from by decide] at h1
  have h2 := field_extract pixel 8 4
  rw [show ((2:Nat) ^ 4 - 1) <<< 8 = 3840 from by decide, show (2:Nat) ^ 8 = 256 from by decide,
    show (2:Nat) ^ 4 = 16 from by decide] at h2
  have h3 := field_extract pixel 12 4
  rw [show ((2:Nat) ^ 4 - 1) <<< 12 = 61440 from by decide, show (2:Nat) ^ 12 = 4096 from by decide,
    show (2:Nat) ^ 4 = 16 from by decide] at h3
  simp only [decode4444, h0, h1, h2, h3]

/-- Division-and-remainder form of the RGBA5551 channel expansion. -/
theorem decode5551_eq (pixel : Nat) : decode5551 pixel =
    [pixel % 32 * 8 + pixel % 32 * 8 / 32,
     pixel / 32 % 32 * 8 + pixel / 32 % 32 * 8 / 32,
     pixel / 1024 % 32 * 8 + pixel / 1024 % 32 * 8 / 32,
     pixel / 32768 % 2 * 255] := by
  have h0 : pixel &&& 0x1F = pixel % 32 := by
    simpa using Nat.and_pow_two_sub_one_eq_mod pixel 5
  have h1 := field_extract pixel 5 5
  rw [show ((2:Nat) ^ 5 - 1) <<< 5 = 992 from by decide, show (2:Nat) ^ 5 = 32 from by decide] at h1
  have h2 := field_extract pixel 10 5
  rw [show ((2:Nat) ^ 5 - 1) <<< 10 = 31744 from by decide, show (2:Nat) ^ 10 = 1024 from by decide,
    show (2:Nat) ^ 5 = 32 from by decide] at h2
  have h3 := field_extract pixel 15 1
  rw [show ((2:Nat) ^ 1 - 1) <<< 15 = 32768 from by decide, show (2:Nat) ^ 15 = 32768 from by decide,
    show (2:Nat) ^ 1 = 2 from by decide] at h3
  simp only [decode5551, h0, h1, h2, h3]

/-- Division-and-remainder form of the RGB565 channel expansion. -/
theorem decode565_eq (pixel : Nat) : decode565 pixel =
    [pixel % 32 * 8 + pixel % 32 * 8 / 32,
     pixel / 32 % 64 * 4 + pixel / 32 % 64 * 4 / 64,
     pixel / 2048 % 32 * 8 + pixel / 2048 % 32 * 8 / 32] := by
  have h0 : pixel &&& 0x1F = pixel % 32 := by
    simpa using Nat.and_pow_two_sub_one_eq_mod pixel 5
  have h1 := field_extract pixel 5 6
  rw [show ((2:Nat) ^ 6 - 1) <<< 5 = 2016 from by decide, show (2:Nat) ^ 5 = 32 from by decide,
    show (2:Nat) ^ 6 = 64 from by decide] at h1
  have h2 := field_extract pixel 11 5
  rw [show ((2:Nat) ^ 5 - 1) <<< 11 = 63488 from by decide, show (2:Nat) ^ 11 = 2048 from by decide,
    show (2:Nat) ^ 5 = 32 from by decide] at h2
  simp only [decode565, h0, h1, h2]

/-- Every format reads at least one byte per pixel. -/
theorem bytes_per_pixel_pos (fmt : PixelFormat) : 0 < fmt.bytes_per_pixel := by
  cases fmt <;> simp [PixelFormat.bytes_per_pixel]

/-- A successful `read_exact` returns the requested slice. -/
theorem read_exact_ok (file : List Nat) (offset len : Nat) (msg : String) (d : List Nat)
    (h : read_exact file offset len msg = .ok d) :
    offset + len ≤ file.length ∧ d = (file.drop offset).take len := by
  unfold read_exact at h
  split at h
  · rename_i hle
    injection h with h'
    exact ⟨hle, h'.symm⟩
  · simp at h

/-- A successful `read_exact` returns exactly `len` bytes. -/
theorem read_exact_ok_length (file : List Nat) (offset len : Nat) (msg : String) (d : List Nat)
    (h : read_exact file offset len msg = .ok d) : d.length = len := by
  obtain ⟨hle, rfl⟩ := read_exact_ok file offset len msg d h
  simp
  omega

/-- Lookup inside a 4-byte slice is lookup in the underlying list (with
matching default when the slice runs past the end). -/
theorem slice4_getD (l : List Nat) (s c : Nat) (hc : c < 4) :
    (slice4 l s).getD c 0 = l.getD (s + c) 0 := by
  unfold slice4
  simp [List.getD_eq_getElem?_getD, List.getElem?_take, hc, List.getElem?_drop]

/-- Lookup inside an `n`-sized slice is lookup in the underlying list. -/
theorem slice_getD (l : List Nat) (s n k : Nat) (hk : k < n) :
    ((l.drop s).take n).getD k 0 = l.getD (s + k) 0 := by
  simp [List.getD_eq_getElem?_getD, List.getElem?_take, hk, List.getElem?_drop]

/-- A list of length 4 is the list of its four default lookups. -/
theorem four_getD (c : List Nat) (h : c.length = 4) :
    [c.getD 0 0, c.getD 1 0, c.getD 2 0, c.getD 3 0] = c := by
  cases c with
  | nil => simp at h
  | cons a t =>
    cases t with
    | nil => simp at h
    | cons b t =>
      cases t with
      | nil => simp at h
      | cons d t =>
        cases t with
        | nil => simp at h
        | cons e t =>
          cases t with
          | nil => rfl
          | cons f t => simp at h

/-- When the chunk size equals the (positive) list length, `chunks_exact`
yields the single chunk. -/
theorem chunks_exact_single (n : Nat) (l : List Nat) (hn : 0 < n) (hl : l.length = n) :
    chunks_exact n l = [l] := by
  unfold chunks_exact
  rw [hl, Nat.div_self hn]
  rw [show List.range 1 = [0] from rfl]
  simp only [List.map_cons, List.map_nil, Nat.zero_mul, List.drop_zero]
  rw [← hl, List.take_length]

/-! Claim theorems. -/

/-- C1: for every RGBA5551 pixel the decoder assembles a 16-bit word from
the two raw bytes according to the selected endianness, extracts 5-bit
fields at bit offsets 0, 5 and 10 and the 1-bit field at offset 15,
expands each 5-bit field `v` to `v*8 + (v*8)/32` and the alpha bit `b` to
`b*255`; with order "rgba" and ignore_alpha = false the word 0xFFFF
decodes to RGBA (255,255,255,255) and 0x0000 decodes to (0,0,0,0). -/
theorem C1_rgba5551_decode :
    (∀ b0 b1 : Nat, pixel_word .LE [b0, b1] = b0 + 256 * b1 ∧
      pixel_word .BE [b0, b1] = 256 * b0 + b1) ∧
    (∀ pixel : Nat, decode5551 pixel =
      [pixel % 32 * 8 + pixel % 32 * 8 / 32,
       pixel / 32 % 32 * 8 + pixel / 32 % 32 * 8 / 32,
       pixel / 1024 % 32 * 8 + pixel / 1024 % 32 * 8 / 32,
       pixel / 32768 % 2 * 255]) ∧
    (∀ e : Endian,
      fill_rgba ⟨.RGBA5551, ['r', 'g', 'b', 'a'], e, false, [], .Bpp8, [], []⟩
        (chunks_exact 2 [255, 255]) = .ok [255, 255, 255, 255] ∧
      fill_rgba ⟨.RGBA5551, ['r', 'g', 'b', 'a'], e, false, [], .Bpp8, [], []⟩
        (chunks_exact 2 [0, 0]) = .ok [0, 0, 0, 0]) := by
  refine ⟨fun b0 b1 => ⟨rfl, rfl⟩, decode5551_eq, fun e => ?_⟩
  cases e <;> exact ⟨rfl, rfl⟩

/-- C10: every channel-scaling computation of the packed-format decoders
stays within the u8 range: 4-bit fields times 17, 5-bit fields times 8
plus the product over 32, the 6-bit field times 4 plus the product over
64, and the alpha bit times 255 are all at most 255, so no 8-bit
arithmetic can wrap or panic. -/
theorem C10_channel_scaling_bounds (pixel : Nat) :
    (∀ c ∈ decode4444 pixel, c ≤ 255) ∧
    (∀ c ∈ decode5551 pixel, c ≤ 255) ∧
    (∀ c ∈ decode565 pixel, c ≤ 255) := by
  refine ⟨?_, ?_, ?_⟩
  · rw [decode4444_eq]
    intro c hc
    simp at hc
    rcases hc with h | h | h | h <;> omega
  · rw [decode5551_eq]
    intro c hc
    simp at hc
    rcases hc with h | h | h | h <;> omega
  · rw [decode565_eq]
    intro c hc
    simp at hc
    rcases hc with h | h | h <;> omega

/-- Witness for C10 at the all-ones word. -/
theorem C10_witness : 255 ∈ decode4444 65535 ∧ (255 : Nat) ≤ 255 :=
  ⟨by decide, (C10_channel_scaling_bounds 65535).1 255 (by decide)⟩

/-- C7: a linear decode whose source holds fewer than
`w * h * bytes_per_pixel` bytes past the offset fails with the
buffer-underrun error, and a canvas is produced only when the read can be
filled exactly. -/
theorem C7_linear_underrun (app : App) (file : List Nat) (w h offset : Nat) :
    (file.length < offset + w * h * app.pixel_format.bytes_per_pixel →
      Image.linear app file w h offset =
        .error "failed to fill pixel data buffer. unexpected end of file") ∧
    (∀ rgba, Image.linear app file w h offset = .ok rgba →
      offset + w * h * app.pixel_format.bytes_per_pixel ≤ file.length) := by
  constructor
  · intro hlt
    have hn : ¬ (offset + w * h * app.pixel_format.bytes_per_pixel ≤ file.length) := by omega
    simp [Image.linear, read_exact, hn]
  · intro rgba hok
    by_cases hle : offset + w * h * app.pixel_format.bytes_per_pixel ≤ file.length
    · exact hle
    · simp [Image.linear, read_exact, hle] at hok

/-- Witness for C7: a 10 by 10 RGBA8888 request over a 399-byte source. -/
theorem C7_witness :
    Image.linear ⟨.RGBA8888, ['r', 'g', 'b', 'a'], .LE, false, [], .Bpp8, [], []⟩
      (List.replicate 399 0) 10 10 0 =
      .error "failed to fill pixel data buffer. unexpected end of file" :=
  (C7_linear_underrun _ _ 10 10 0).1
    (by show (List.replicate 399 0).length < 0 + 10 * 10 * 4; rw [List.length_replicate]; norm_num)

/-- Computation of the RGBA8888 branch of `fill_rgba` under the canonical
"rgba" order, for either alpha flag. -/
theorem fill_rgba_8888_rgba (e : Endian) (ia : Bool) (po tw th : List Char) (bpp : Bpp)
    (chunks : List (List Nat)) :
    fill_rgba ⟨.RGBA8888, ['r', 'g', 'b', 'a'], e, ia, po, bpp, tw, th⟩ chunks =
      .ok (chunks.flatMap fun chunk =>
        [chunk.getD 0 0, chunk.getD 1 0, chunk.getD 2 0,
         if ia then 255 else chunk.getD 3 0]) := rfl

/-- C6: an RGBA8888 stream decoded with order "rgba" and
ignore_alpha = false is returned byte for byte; with ignore_alpha = true
every output alpha byte is forced to 255 while the R, G, B bytes still
equal the input bytes at their resolved positions. -/
theorem C6_rgba8888_identity (e : Endian) (po tw th : List Char) (bpp : Bpp) (bs : List Nat) :
    (bs.length % 4 = 0 →
      fill_rgba ⟨.RGBA8888, ['r', 'g', 'b', 'a'], e, false, po, bpp, tw, th⟩
        (chunks_exact 4 bs) = .ok bs) ∧
    (∀ out, fill_rgba ⟨.RGBA8888, ['r', 'g', 'b', 'a'], e, true, po, bpp, tw, th⟩
        (chunks_exact 4 bs) = .ok out →
      ∀ i, i < bs.length / 4 →
        out.getD (i * 4 + 3) 0 = 255 ∧
        out.getD (i * 4 + 0) 0 = bs.getD (i * 4 + 0) 0 ∧
        out.getD (i * 4 + 1) 0 = bs.getD (i * 4 + 1) 0 ∧
        out.getD (i * 4 + 2) 0 = bs.getD (i * 4 + 2) 0) := by
  constructor
  · intro hmod
    rw [fill_rgba_8888_rgba]
    congr 1
    have hcong : ∀ c ∈ chunks_exact 4 bs,
        (fun chunk => [chunk.getD 0 0, chunk.getD 1 0, chunk.getD 2 0,
          if false then 255 else chunk.getD 3 0]) c = id c := by
      intro c hc
      simp only [if_neg Bool.false_ne_true, id]
      exact four_getD c (chunks_exact_mem_length 4 bs c hc)
    rw [List.flatMap_def, List.map_congr_left hcong, List.map_id]
    exact chunks_exact_flatten 4 bs hmod
  · intro out hout i hi
    rw [fill_rgba_8888_rgba] at hout
    injection hout with hout
    subst hout
    unfold chunks_exact
    rw [List.flatMap_map]
    have hlen4 : ∀ k, k < bs.length / 4 →
        ((fun k => [((bs.drop (k * 4)).take 4).getD 0 0, ((bs.drop (k * 4)).take 4).getD 1 0,
          ((bs.drop (k * 4)).take 4).getD 2 0,
          if true then 255 else ((bs.drop (k * 4)).take 4).getD 3 0]) k).length = 4 := by
      intro k _
      simp
    refine ⟨?_, ?_, ?_, ?_⟩
    · rw [getD_flatMap_range _ 4 (bs.length / 4) i 3 0 hlen4 hi (by norm_num)]
      simp
    · rw [getD_flatMap_range _ 4 (bs.length / 4) i 0 0 hlen4 hi (by norm_num)]
      simp [List.getD_eq_getElem?_getD, List.getElem?_take, List.getElem?_drop]
    · rw [getD_flatMap_range _ 4 (bs.length / 4) i 1 0 hlen4 hi (by norm_num)]
      simp [List.getD_eq_getElem?_getD, List.getElem?_take, List.getElem?_drop]
    · rw [getD_flatMap_range _ 4 (bs.length / 4) i 2 0 hlen4 hi (by norm_num)]
      simp [List.getD_eq_getElem?_getD, List.getElem?_take, List.getElem?_drop]

/-- Witness for C6 on a concrete two-pixel stream. -/
theorem C6_witness :
    fill_rgba ⟨.RGBA8888, ['r', 'g', 'b', 'a'], .LE, false, [], .Bpp8, [], []⟩
      (chunks_exact 4 [1, 2, 3, 4, 5, 6, 7, 8]) = .ok [1, 2, 3, 4, 5, 6, 7, 8] :=
  (C6_rgba8888_identity .LE [] [] [] .Bpp8 [1, 2, 3, 4, 5, 6, 7, 8]).1 (by norm_num)

/-- Propositional form of the boolean 4-channel order condition. -/
theorem cond4_iff (low : List Char) :
    ((low.length == 4 && (['r', 'g', 'b', 'a'].all fun chr => low.contains chr)) = true) ↔
      (low.length = 4 ∧ 'r' ∈ low ∧ 'g' ∈ low ∧ 'b' ∈ low ∧ 'a' ∈ low) := by
  simp [List.all_cons, List.all_nil, and_assoc]

/-- Propositional form of the boolean 3-channel order condition. -/
theorem cond3_iff (low : List Char) :
    ((low.length == 3 && (['r', 'g', 'b'].all fun chr => low.contains chr)) = true) ↔
      (low.length = 3 ∧ 'r' ∈ low ∧ 'g' ∈ low ∧ 'b' ∈ low) := by
  simp [List.all_cons, List.all_nil, and_assoc]

/-- Validation of a 4-channel order as an if over the propositional
condition. -/
theorem valid_order_char4 (order : List Char) :
    PixelFormat.RGBA8888.valid_order order =
      (if order.length = 4 ∧ 'r' ∈ order.map Char.toLower ∧ 'g' ∈ order.map Char.toLower ∧
          'b' ∈ order.map Char.toLower ∧ 'a' ∈ order.map Char.toLower
       then some (order.map Char.toLower) else none) := by
  rw [show PixelFormat.RGBA8888.valid_order order =
      (if ((order.map Char.toLower).length == 4 &&
          (['r', 'g', 'b', 'a'].all fun chr => (order.map Char.toLower).contains chr))
       then some (order.map Char.toLower) else none) from rfl]
  by_cases hp : order.length = 4 ∧ 'r' ∈ order.map Char.toLower ∧ 'g' ∈ order.map Char.toLower ∧
      'b' ∈ order.map Char.toLower ∧ 'a' ∈ order.map Char.toLower
  · have hb := (cond4_iff (order.map Char.toLower)).mpr (by simpa [List.length_map] using hp)
    rw [if_pos hb, if_pos hp]
  · have hb : ¬ (((order.map Char.toLower).length == 4 &&
        (['r', 'g', 'b', 'a'].all fun chr => (order.map Char.toLower).contains chr)) = true) :=
      fun hb => hp (by simpa [List.length_map] using (cond4_iff (order.map Char.toLower)).mp hb)
    rw [if_neg hb, if_neg hp]

/-- Validation of a 3-channel order as an if over the propositional
condition. -/
theorem valid_order_char3 (order : List Char) :
    PixelFormat.RGB888.valid_order order =
      (if order.length = 3 ∧ 'r' ∈ order.map Char.toLower ∧ 'g' ∈ order.map Char.toLower ∧
          'b' ∈ order.map Char.toLower
       then some (order.map Char.toLower) else none) := by
  rw [show PixelFormat.RGB888.valid_order order =
      (if ((order.map Char.toLower).length == 3 &&
          (['r', 'g', 'b'].all fun chr => (order.map Char.toLower).contains chr))
       then some (order.map Char.toLower) else none) from rfl]
  by_cases hp : order.length = 3 ∧ 'r' ∈ order.map Char.toLower ∧ 'g' ∈ order.map Char.toLower ∧
      'b' ∈ order.map Char.toLower
  · have hb := (cond3_iff (order.map Char.toLower)).mpr (by simpa [List.length_map] using hp)
    rw [if_pos hb, if_pos hp]
  · have hb : ¬ (((order.map Char.toLower).length == 3 &&
        (['r', 'g', 'b'].all fun chr => (order.map Char.toLower).contains chr)) = true) :=
      fun hb => hp (by simpa [List.length_map] using (cond3_iff (order.map Char.toLower)).mp hb)
    rw [if_neg hb, if_neg hp]

/-- Occurrence counts of the four channel letters never exceed the string
length. -/
theorem count_four_le_length (l : List Char) :
    l.count 'r' + l.count 'g' + l.count 'b' + l.count 'a' ≤ l.length := by
  induction l with
  | nil => simp
  | cons hd tl ih =>
    simp only [List.count_cons, List.length_cons]
    by_cases h1 : hd = 'r' <;> by_cases h2 : hd = 'g' <;> by_cases h3 : hd = 'b' <;>
      by_cases h4 : hd = 'a' <;> simp_all <;> omega

/-- C3: order validation lower-cases the string, succeeding exactly when
the character count matches the format's channel count and every required
letter occurs (which forces each required letter to occur exactly once);
single-channel formats validate every string with an empty mapping; on
failure `fill_rgba` aborts with the invalid-component-order error. -/
theorem C3_component_order (order : List Char) :
    (PixelFormat.RGBA8888.valid_order order =
      (if order.length = 4 ∧ 'r' ∈ order.map Char.toLower ∧ 'g' ∈ order.map Char.toLower ∧
          'b' ∈ order.map Char.toLower ∧ 'a' ∈ order.map Char.toLower
       then some (order.map Char.toLower) else none)) ∧
    (PixelFormat.RGBA4444.valid_order order = PixelFormat.RGBA8888.valid_order order) ∧
    (PixelFormat.RGBA5551.valid_order order = PixelFormat.RGBA8888.valid_order order) ∧
    (PixelFormat.RGB888.valid_order order =
      (if order.length = 3 ∧ 'r' ∈ order.map Char.toLower ∧ 'g' ∈ order.map Char.toLower ∧
          'b' ∈ order.map Char.toLower
       then some (order.map Char.toLower) else none)) ∧
    (PixelFormat.RGB565.valid_order order = PixelFormat.RGB888.valid_order order) ∧
    (PixelFormat.R8.valid_order order = some [] ∧ PixelFormat.G8.valid_order order = some [] ∧
      PixelFormat.B8.valid_order order = some [] ∧ PixelFormat.L8.valid_order order = some []) ∧
    (∀ l, PixelFormat.RGBA8888.valid_order order = some l →
      l.count 'r' = 1 ∧ l.count 'g' = 1 ∧ l.count 'b' = 1 ∧ l.count 'a' = 1) ∧
    (∀ l, PixelFormat.RGB888.valid_order order = some l →
      l.count 'r' = 1 ∧ l.count 'g' = 1 ∧ l.count 'b' = 1) ∧
    (∀ (app : App) (chunks : List (List Nat)),
      app.pixel_format.valid_order app.component_order = none →
      fill_rgba app chunks = .error "invalid component order") := by
  refine ⟨valid_order_char4 order, rfl, rfl, valid_order_char3 order, rfl,
    ⟨rfl, rfl, rfl, rfl⟩, ?_, ?_, ?_⟩
  · intro l hl
    rw [valid_order_char4] at hl
    split at hl
    · rename_i hcond
      injection hl with hl
      subst hl
      obtain ⟨hlen, hr, hg, hb, ha⟩ := hcond
      have hlen4 : (order.map Char.toLower).length = 4 := by simpa [List.length_map] using hlen
      have h1 := List.one_le_count_iff.mpr hr
      have h2 := List.one_le_count_iff.mpr hg
      have h3 := List.one_le_count_iff.mpr hb
      have h4 := List.one_le_count_iff.mpr ha
      have hs := count_four_le_length (order.map Char.toLower)
      rw [hlen4] at hs
      omega
    · simp at hl
  · intro l hl
    rw [valid_order_char3] at hl
    split at hl
    · rename_i hcond
      injection hl with hl
      subst hl
      obtain ⟨hlen, hr, hg, hb⟩ := hcond
      have hlen3 : (order.map Char.toLower).length = 3 := by simpa [List.length_map] using hlen
      have h1 := List.one_le_count_iff.mpr hr
      have h2 := List.one_le_count_iff.mpr hg
      have h3 := List.one_le_count_iff.mpr hb
      have hs := count_four_le_length (order.map Char.toLower)
      rw [hlen3] at hs
      omega
    · simp at hl
  · intro app chunks hnone
    simp only [fill_rgba, hnone]

/-- Witness for C3: "rgab" is accepted with each letter exactly once, and
an invalid order aborts the decode. -/
theorem C3_witness :
    (['r', 'g', 'a', 'b'].count 'r' = 1 ∧ ['r', 'g', 'a', 'b'].count 'g' = 1 ∧
      ['r', 'g', 'a', 'b'].count 'b' = 1 ∧ ['r', 'g', 'a', 'b'].count 'a' = 1) ∧
    fill_rgba ⟨.RGBA8888, ['r', 'g', 'b'], .LE, false, [], .Bpp8, [], []⟩ [] =
      .error "invalid component order" :=
  ⟨(C3_component_order ['r', 'g', 'a', 'b']).2.2.2.2.2.2.1 ['r', 'g', 'a', 'b'] rfl,
   (C3_component_order ['r', 'g', 'b']).2.2.2.2.2.2.2.2
     ⟨.RGBA8888, ['r', 'g', 'b'], .LE, false, [], .Bpp8, [], []⟩ [] rfl⟩

/-- Counterexample to C2: an Indexed request whose component order is
invalid for RGBA8888 and whose palette offset is unparsable fails with
the palette-offset error, not the component-order error. -/
theorem C2_counterexample :
    Image.indexed ⟨.RGBA8888, ['x', 'y', 'z', 'w'], .LE, false, [], .Bpp8, [], []⟩ [] 1 1 0 =
      .error "palette offset is empty" ∧
    PixelFormat.RGBA8888.valid_order ['x', 'y', 'z', 'w'] = none ∧
    parse_usize ([] : List Char) = none ∧
    "palette offset is empty" ≠ "invalid component order" := by
  refine ⟨rfl, rfl, rfl, by decide⟩

/-- C2 (amended): in indexed mode the palette-offset parse error precedes
everything, the palette bytes are read next (an undersized source at the
palette offset fails with the palette underrun even when the order is also
invalid), and only then is the component order validated during palette
decoding, before the pixel-index read. -/
theorem C2_indexed_error_order (app : App) (file : List Nat) (w h offset : Nat) :
    (parse_usize app.palette_offset = none →
      Image.indexed app file w h offset = .error "palette offset is empty") ∧
    (∀ po, parse_usize app.palette_offset = some po →
      file.length < po + app.palette_bpp.color_count * app.pixel_format.bytes_per_pixel →
      Image.indexed app file w h offset =
        .error "failed to fill palette data buffer. unexpected end of file") ∧
    (∀ po, parse_usize app.palette_offset = some po →
      po + app.palette_bpp.color_count * app.pixel_format.bytes_per_pixel ≤ file.length →
      app.pixel_format.valid_order app.component_order = none →
      Image.indexed app file w h offset = .error "invalid component order") := by
  refine ⟨?_, ?_, ?_⟩
  · intro hnone
    simp only [Image.indexed, hnone]
  · intro po hpo hlt
    have hn : ¬ (po + app.palette_bpp.color_count * app.pixel_format.bytes_per_pixel ≤
        file.length) := by omega
    simp only [Image.indexed, hpo, read_exact, if_neg hn]
  · intro po hpo hle hnone
    simp only [Image.indexed, hpo, read_exact, if_pos hle, fill_rgba, hnone]

/-- Witness for the amended C2 on concrete indexed requests. -/
theorem C2_witness :
    Image.indexed ⟨.RGBA8888, ['x', 'y', 'z', 'w'], .LE, false, ['q'], .Bpp8, [], []⟩ [] 1 1 0 =
      .error "palette offset is empty" ∧
    Image.indexed ⟨.RGBA8888, ['x', 'y', 'z', 'w'], .LE, false, ['0'], .Bpp8, [], []⟩ [] 1 1 0 =
      .error "failed to fill palette data buffer. unexpected end of file" ∧
    Image.indexed ⟨.RGBA8888, ['x', 'y', 'z', 'w'], .LE, false, ['0'], .Bpp8, [], []⟩
      (List.replicate 1024 0) 1 1 0 = .error "invalid component order" :=
  ⟨(C2_indexed_error_order _ [] 1 1 0).1 rfl,
   (C2_indexed_error_order _ [] 1 1 0).2.1 0 rfl (by decide),
   (C2_indexed_error_order _ (List.replicate 1024 0) 1 1 0).2.2 0 rfl
     (by rw [List.length_replicate]; show 0 + 256 * 4 ≤ 1024; norm_num) rfl⟩

/-- Errors of `read_exact` carry the caller's message. -/
theorem read_exact_error (file : List Nat) (offset len : Nat) (msg : String) (e : String)
    (h : read_exact file offset len msg = .error e) : e = msg := by
  unfold read_exact at h
  split at h
  · simp at h
  · simp at h
    exact h.symm

/-- Every error of `Image.linear` is the pixel underrun message or an
order-validation message. -/
theorem linear_error_mem (app : App) (file : List Nat) (w h offset : Nat) (s : String)
    (herr : Image.linear app file w h offset = .error s) :
    s = "failed to fill pixel data buffer. unexpected end of file" ∨
    s = "invalid component order" ∨ s = "invalid rgba order" ∨ s = "invalid rgb order" := by
  unfold Image.linear at herr
  dsimp only at herr
  split at herr
  · rename_i e heq
    simp at herr
    subst herr
    exact Or.inl (read_exact_error _ _ _ _ _ heq)
  · exact Or.inr (fill_rgba_error_mem _ _ _ herr)

/-- Every error of `Image.indexed` is the palette-offset message, an
underrun message, or an order-validation message. -/
theorem indexed_error_mem (app : App) (file : List Nat) (w h offset : Nat) (s : String)
    (herr : Image.indexed app file w h offset = .error s) :
    s = "palette offset is empty" ∨
    s = "failed to fill palette data buffer. unexpected end of file" ∨
    s = "failed to fill pixel data buffer. unexpected end of file" ∨
    s = "invalid component order" ∨ s = "invalid rgba order" ∨ s = "invalid rgb order" := by
  unfold Image.indexed at herr
  cases hbpp : app.palette_bpp <;> rw [hbpp] at herr <;> dsimp only at herr <;>
  · split at herr
    · simp at herr
      exact Or.inl herr.symm
    · split at herr
      · rename_i e heq
        simp at herr
        subst herr
        exact Or.inr (Or.inl (read_exact_error _ _ _ _ _ heq))
      · split at herr
        · rename_i e heq
          simp at herr
          subst herr
          rcases fill_rgba_error_mem _ _ _ heq with h1 | h1 | h1 <;> subst h1 <;> tauto
        · split at herr
          · rename_i e heq
            simp at herr
            subst herr
            exact Or.inr (Or.inr (Or.inl (read_exact_error _ _ _ _ _ heq)))
          · simp at herr

/-- C8: a tiled decode whose width (or height) is not an exact multiple of
the tile width (or height) fails with the corresponding tile-mismatch
error for every source, so no byte of the source is consulted; linear and
indexed decodes can never produce these errors, so the check belongs to
the tiled mode alone. -/
theorem C8_tile_divisibility :
    (∀ (app : App) (file : List Nat) (w h offset tile_w tile_h : Nat),
      parse_usize app.tile_width = some tile_w →
      parse_usize app.tile_height = some tile_h →
      w % tile_w ≠ 0 →
      Image.tiled app file w h offset = .error "width is not divisible by tile width") ∧
    (∀ (app : App) (file : List Nat) (w h offset tile_w tile_h : Nat),
      parse_usize app.tile_width = some tile_w →
      parse_usize app.tile_height = some tile_h →
      w % tile_w = 0 → h % tile_h ≠ 0 →
      Image.tiled app file w h offset = .error "height is not divisible by tile height") ∧
    (∀ (app : App) (file : List Nat) (w h offset : Nat) (s : String),
      Image.linear app file w h offset = .error s →
      s ≠ "width is not divisible by tile width" ∧
      s ≠ "height is not divisible by tile height") ∧
    (∀ (app : App) (file : List Nat) (w h offset : Nat) (s : String),
      Image.indexed app file w h offset = .error s →
      s ≠ "width is not divisible by tile width" ∧
      s ≠ "height is not divisible by tile height") := by
  refine ⟨?_, ?_, ?_, ?_⟩
  · intro app file w h offset tile_w tile_h htw hth hw
    simp only [Image.tiled, htw, hth]
    rw [if_pos hw]
  · intro app file w h offset tile_w tile_h htw hth hw hh
    simp only [Image.tiled, htw, hth]
    rw [if_neg (by simp [hw]), if_pos hh]
  · intro app file w h offset s herr
    rcases linear_error_mem app file w h offset s herr with h1 | h1 | h1 | h1 <;>
      subst h1 <;> exact ⟨by decide, by decide⟩
  · intro app file w h offset s herr
    rcases indexed_error_mem app file w h offset s herr with h1 | h1 | h1 | h1 | h1 | h1 <;>
      subst h1 <;> exact ⟨by decide, by decide⟩

/-- Witness for C8: width 5 with tile width 2 rejects before reading, and
a linear failure is never a tile-mismatch message. -/
theorem C8_witness :
    Image.tiled ⟨.R8, [], .LE, false, [], .Bpp8, ['2'], ['2']⟩ [7, 7, 7] 5 4 0 =
      .error "width is not divisible by tile width" ∧
    ("failed to fill pixel data buffer. unexpected end of file" ≠
        "width is not divisible by tile width" ∧
      "failed to fill pixel data buffer. unexpected end of file" ≠
        "height is not divisible by tile height") :=
  ⟨C8_tile_divisibility.1 _ [7, 7, 7] 5 4 0 2 2 rfl rfl (by norm_num),
   C8_tile_divisibility.2.2.1 ⟨.R8, [], .LE, false, [], .Bpp8, [], []⟩ [] 1 1 0 _ rfl⟩

/-- C5: in indexed 4-bit mode, the byte at position `i` of the index
stream colors canvas pixel `2*i` from its low nibble and canvas pixel
`2*i + 1` from its high nibble, each nibble scaled by 4 to address its
4-byte entry of the decoded color table. -/
theorem C5_indexed_4bpp_nibbles (app : App) (file : List Nat) (w h offset : Nat)
    (po : Nat) (palette_data palette_rgba pixel_data : List Nat)
    (hbpp : app.palette_bpp = .Bpp4)
    (hpo : parse_usize app.palette_offset = some po)
    (hpal : read_exact file po (app.palette_bpp.color_count * app.pixel_format.bytes_per_pixel)
      "failed to fill palette data buffer. unexpected end of file" = .ok palette_data)
    (hfill : fill_rgba app (chunks_exact app.pixel_format.bytes_per_pixel palette_data) =
      .ok palette_rgba)
    (hpix : read_exact file offset (w * h / 2)
      "failed to fill pixel data buffer. unexpected end of file" = .ok pixel_data) :
    ∃ rgba, Image.indexed app file w h offset = .ok rgba ∧
      ∀ i, i < pixel_data.length → ∀ c, c < 4 →
        rgba.getD (2 * i * 4 + c) 0 =
          palette_rgba.getD ((pixel_data.getD i 0 &&& 0xF) * 4 + c) 0 ∧
        rgba.getD ((2 * i + 1) * 4 + c) 0 =
          palette_rgba.getD (((pixel_data.getD i 0 &&& 0xF0) >>> 4) * 4 + c) 0 := by
  have hbpc : 0 < app.pixel_format.bytes_per_pixel := bytes_per_pixel_pos _
  have hpal_len : palette_data.length = 16 * app.pixel_format.bytes_per_pixel := by
    have h1 := read_exact_ok_length _ _ _ _ _ hpal
    rw [hbpp] at h1
    simpa [Bpp.color_count] using h1
  have hprgba_len : palette_rgba.length = 64 := by
    have h1 := fill_rgba_ok_length _ _ _ hfill
    rw [chunks_exact_length, hpal_len, Nat.mul_div_cancel 16 hbpc] at h1
    omega
  have hlo : ∀ b : Nat, (b &&& 15) * 4 + 4 ≤ 64 := by
    intro b
    have h1 : b &&& 15 ≤ 15 := Nat.and_le_right
    omega
  have hhi : ∀ b : Nat, ((b &&& 240) >>> 4) * 4 + 4 ≤ 64 := by
    intro b
    have h1 : b &&& 240 ≤ 240 := Nat.and_le_right
    have h2 : (b &&& 240) >>> 4 = (b &&& 240) / 16 := by
      rw [Nat.shiftRight_eq_div_pow]
    omega
  have hlo_len : ∀ b : Nat, (slice4 palette_rgba ((b &&& 15) * 4)).length = 4 := by
    intro b
    have := hlo b
    simp only [slice4, List.length_take, List.length_drop]
    omega
  have hhi_len : ∀ b : Nat, (slice4 palette_rgba (((b &&& 240) >>> 4) * 4)).length = 4 := by
    intro b
    have := hhi b
    simp only [slice4, List.length_take, List.length_drop]
    omega
  have hflen : ∀ b ∈ pixel_data,
      ((fun pixels => slice4 palette_rgba ((pixels &&& 15) * 4) ++
        slice4 palette_rgba (((pixels &&& 240) >>> 4) * 4)) b).length = 8 := by
    intro b _
    simp only [List.length_append, hlo_len b, hhi_len b]
  have hflat_len : (pixel_data.flatMap fun pixels =>
      slice4 palette_rgba ((pixels &&& 15) * 4) ++
      slice4 palette_rgba (((pixels &&& 240) >>> 4) * 4)).length = 8 * pixel_data.length :=
    length_flatMap_const _ _ 8 hflen
  refine ⟨(pixel_data.flatMap fun pixels =>
      slice4 palette_rgba ((pixels &&& 0xF) * 4) ++
      slice4 palette_rgba (((pixels &&& 0xF0) >>> 4) * 4)) ++
    List.replicate (w * h * 4 - w * h / 2 * 8) 0, ?_, ?_⟩
  · have hpal2 : read_exact file po
        (Bpp.color_count .Bpp4 * app.pixel_format.bytes_per_pixel)
        "failed to fill palette data buffer. unexpected end of file" = .ok palette_data := by
      rw [← hbpp]
      exact hpal
    simp only [Image.indexed, hpo, hbpp, hpal2, hfill, hpix]
  · intro i hi c hc
    constructor
    · rw [show 2 * i * 4 + c = i * 8 + c by ring]
      rw [List.getD_append _ _ _ _ (by rw [hflat_len]; omega)]
      rw [getD_flatMap_fixed pixel_data _ 8 0 0 hflen i c hi (by omega)]
      rw [List.getD_append _ _ _ _ (by rw [hlo_len]; omega)]
      exact slice4_getD palette_rgba _ c hc
    · rw [show (2 * i + 1) * 4 + c = i * 8 + (4 + c) by ring]
      rw [List.getD_append _ _ _ _ (by rw [hflat_len]; omega)]
      rw [getD_flatMap_fixed pixel_data _ 8 0 0 hflen i (4 + c) hi (by omega)]
      rw [List.getD_append_right _ _ _ _ (by rw [hlo_len]; omega)]
      rw [hlo_len]
      rw [show 4 + c - 4 = c by omega]
      exact slice4_getD palette_rgba _ c hc

/-- Witness for C5: a 16-entry greyscale L8 palette with index bytes 0x10
and 0x32 colors pixels 0,1,2,3 from nibbles 0,1,2,3. -/
theorem C5_witness :
    ∃ rgba,
      Image.indexed ⟨.L8, [], .LE, false, ['0'], .Bpp4, [], []⟩
        [0, 1, 2, 3, 4, 5, 6, 7, 8, 9, 10, 11, 12, 13, 14, 15, 16, 50] 2 2 16 = .ok rgba ∧
      ∀ i, i < ([16, 50] : List Nat).length → ∀ c, c < 4 →
        rgba.getD (2 * i * 4 + c) 0 =
          ([0, 0, 0, 255, 1, 1, 1, 255, 2, 2, 2, 255, 3, 3, 3, 255, 4, 4, 4, 255, 5, 5, 5, 255, 6, 6, 6, 255, 7, 7, 7, 255, 8, 8, 8, 255, 9, 9, 9, 255, 10, 10, 10, 255, 11, 11, 11, 255, 12, 12, 12, 255, 13, 13, 13, 255, 14, 14, 14, 255, 15, 15, 15, 255] : List Nat).getD
            ((([16, 50] : List Nat).getD i 0 &&& 0xF) * 4 + c) 0 ∧
        rgba.getD ((2 * i + 1) * 4 + c) 0 =
          ([0, 0, 0, 255, 1, 1, 1, 255, 2, 2, 2, 255, 3, 3, 3, 255, 4, 4, 4, 255, 5, 5, 5, 255, 6, 6, 6, 255, 7, 7, 7, 255, 8, 8, 8, 255, 9, 9, 9, 255, 10, 10, 10, 255, 11, 11, 11, 255, 12, 12, 12, 255, 13, 13, 13, 255, 14, 14, 14, 255, 15, 15, 15, 255] : List Nat).getD
            ((([16, 50] : List Nat).getD i 0 &&& 0xF0) >>> 4 * 4 + c) 0 :=
  C5_indexed_4bpp_nibbles ⟨.L8, [], .LE, false, ['0'], .Bpp4, [], []⟩
    [0, 1, 2, 3, 4, 5, 6, 7, 8, 9, 10, 11, 12, 13, 14, 15, 16, 50] 2 2 16 0
    [0, 1, 2, 3, 4, 5, 6, 7, 8, 9, 10, 11, 12, 13, 14, 15]
    [0, 0, 0, 255, 1, 1, 1, 255, 2, 2, 2, 255, 3, 3, 3, 255, 4, 4, 4, 255, 5, 5, 5, 255, 6, 6, 6, 255, 7, 7, 7, 255, 8, 8, 8, 255, 9, 9, 9, 255, 10, 10, 10, 255, 11, 11, 11, 255, 12, 12, 12, 255, 13, 13, 13, 255, 14, 14, 14, 255, 15, 15, 15, 255]
    [16, 50] rfl rfl rfl rfl rfl

/-- Row-major grid index of an in-range cell is in range. -/
theorem grid_index_lt (a A b B : Nat) (ha : a < A) (hb : b < B) : b * A + a < A * B := by
  have h1 : b + 1 ≤ B := hb
  calc b * A + a < b * A + A := by omega
    _ = (b + 1) * A := by ring
    _ ≤ B * A := Nat.mul_le_mul_right A h1
    _ = A * B := Nat.mul_comm B A

/-- A fully in-range 4-byte slice has length 4. -/
theorem slice4_length (l : List Nat) (s : Nat) (h : s + 4 ≤ l.length) :
    (slice4 l s).length = 4 := by
  simp only [slice4, List.length_take, List.length_drop]
  omega

/-- C4: tiled decoding splits the stream read at the image offset into
equal chunks, decodes chunk `k` as the tile at row `k / tiles_per_row`
and column `k % tiles_per_row`, and every canvas pixel `(x, y)` receives
the 4 bytes of tile `(y / tile_h, x / tile_w)` at in-tile offset
`(y % tile_h, x % tile_w)`, stored at canvas byte offset `(y*w + x)*4`;
on the 4 by 4 single-byte example with 2 by 2 tiles whose tile `k` bytes
all hold `k`, the four quadrants read 0, 1, 2, 3. -/
theorem C4_tiled_assembly :
    (∀ (app : App) (file : List Nat) (w h offset tile_w tile_h : Nat)
      (pixel_datas : List Nat) (tiles : List (List Nat)),
      parse_usize app.tile_width = some tile_w →
      parse_usize app.tile_height = some tile_h →
      0 < tile_w → 0 < tile_h →
      w % tile_w = 0 → h % tile_h = 0 →
      read_exact file offset
        (tile_w * tile_h * app.pixel_format.bytes_per_pixel * (w / tile_w * (h / tile_h)))
        "failed to fill pixel data buffer. unexpected end of file" = .ok pixel_datas →
      decode_tiles app
        (chunks_exact (tile_w * tile_h * app.pixel_format.bytes_per_pixel) pixel_datas) =
        .ok tiles →
      Image.tiled app file w h offset =
        .ok ((List.range h).flatMap fun y =>
          (List.range w).flatMap fun x =>
            slice4 (tiles.getD (y / tile_h * (w / tile_w) + x / tile_w) [])
              ((y % tile_h * tile_w + x % tile_w) * 4)) ∧
      (∀ k, k < tiles.length →
        fill_rgba app (chunks_exact app.pixel_format.bytes_per_pixel
          ((pixel_datas.drop (k * (tile_w * tile_h * app.pixel_format.bytes_per_pixel))).take
            (tile_w * tile_h * app.pixel_format.bytes_per_pixel))) = .ok (tiles.getD k [])) ∧
      (∀ x y c, x < w → y < h → c < 4 →
        ((List.range h).flatMap fun y' =>
          (List.range w).flatMap fun x' =>
            slice4 (tiles.getD (y' / tile_h * (w / tile_w) + x' / tile_w) [])
              ((y' % tile_h * tile_w + x' % tile_w) * 4)).getD ((y * w + x) * 4 + c) 0 =
          (tiles.getD (y / tile_h * (w / tile_w) + x / tile_w) []).getD
            ((y % tile_h * tile_w + x % tile_w) * 4 + c) 0)) ∧
    Image.tiled ⟨.R8, [], .LE, false, [], .Bpp8, ['2'], ['2']⟩
      [0, 0, 0, 0, 1, 1, 1, 1, 2, 2, 2, 2, 3, 3, 3, 3] 4 4 0 =
      .ok [0, 0, 0, 255, 0, 0, 0, 255, 1, 0, 0, 255, 1, 0, 0, 255,
           0, 0, 0, 255, 0, 0, 0, 255, 1, 0, 0, 255, 1, 0, 0, 255,
           2, 0, 0, 255, 2, 0, 0, 255, 3, 0, 0, 255, 3, 0, 0, 255,
           2, 0, 0, 255, 2, 0, 0, 255, 3, 0, 0, 255, 3, 0, 0, 255] := by
  constructor
  · intro app file w h offset tile_w tile_h pixel_datas tiles htw hth htw0 hth0 hw hh hread htiles
    have hbpc : 0 < app.pixel_format.bytes_per_pixel := bytes_per_pixel_pos _
    have hN : 0 < tile_w * tile_h * app.pixel_format.bytes_per_pixel :=
      Nat.mul_pos (Nat.mul_pos htw0 hth0) hbpc
    have hpdlen : pixel_datas.length =
        tile_w * tile_h * app.pixel_format.bytes_per_pixel * (w / tile_w * (h / tile_h)) :=
      read_exact_ok_length _ _ _ _ _ hread
    have hchunks_len : (chunks_exact (tile_w * tile_h * app.pixel_format.bytes_per_pixel)
        pixel_datas).length = w / tile_w * (h / tile_h) := by
      rw [chunks_exact_length, hpdlen, Nat.mul_div_cancel_left _ hN]
    have htc : tiles.length = w / tile_w * (h / tile_h) := by
      rw [decode_tiles_ok_length _ _ _ htiles, hchunks_len]
    have htile_len : ∀ k, k < tiles.length →
        (tiles.getD k []).length = 4 * (tile_w * tile_h) := by
      intro k hk
      have hk' : k < (chunks_exact (tile_w * tile_h * app.pixel_format.bytes_per_pixel)
          pixel_datas).length := by rw [hchunks_len, ← htc]; exact hk
      have hfk := decode_tiles_ok_get _ _ _ htiles k hk'
      have hlen := fill_rgba_ok_length _ _ _ hfk
      rw [chunks_exact_length, chunks_exact_chunk_length _ _ _
        (by rw [hpdlen, Nat.mul_div_cancel_left _ hN, ← htc]; exact hk)] at hlen
      rw [hlen, Nat.mul_div_cancel _ hbpc]
    refine ⟨?_, ?_, ?_⟩
    · simp only [Image.tiled, htw, hth]
      rw [if_neg (by simp [hw]), if_neg (by simp [hh])]
      simp only [hread, htiles]
    · intro k hk
      have hk' : k < (chunks_exact (tile_w * tile_h * app.pixel_format.bytes_per_pixel)
          pixel_datas).length := by rw [hchunks_len, ← htc]; exact hk
      have hfk := decode_tiles_ok_get _ _ _ htiles k hk'
      rwa [chunks_exact_getD _ _ _
        (by rw [hpdlen, Nat.mul_div_cancel_left _ hN, ← htc]; exact hk)] at hfk
    · intro x y c hx hy hc
      have hidx : ∀ y' x', y' < h → x' < w →
          y' / tile_h * (w / tile_w) + x' / tile_w < tiles.length := by
        intro y' x' hy' hx'
        rw [htc]
        exact grid_index_lt _ _ _ _
          (Nat.div_lt_div_of_lt_of_dvd (Nat.dvd_of_mod_eq_zero hw) hx')
          (Nat.div_lt_div_of_lt_of_dvd (Nat.dvd_of_mod_eq_zero hh) hy')
      have hsrc : ∀ y' x', (y' % tile_h * tile_w + x' % tile_w) * 4 + 4 ≤
          4 * (tile_w * tile_h) := by
        intro y' x'
        have h1 : y' % tile_h < tile_h := Nat.mod_lt y' hth0
        have h2 : x' % tile_w < tile_w := Nat.mod_lt x' htw0
        nlinarith
      have hpiece : ∀ y', y' < h → ∀ x', x' < w →
          (slice4 (tiles.getD (y' / tile_h * (w / tile_w) + x' / tile_w) [])
            ((y' % tile_h * tile_w + x' % tile_w) * 4)).length = 4 := by
        intro y' hy' x' hx'
        exact slice4_length _ _ (by rw [htile_len _ (hidx y' x' hy' hx')]; exact hsrc y' x')
      have hinner : ∀ y', y' < h →
          ((List.range w).flatMap fun x' =>
            slice4 (tiles.getD (y' / tile_h * (w / tile_w) + x' / tile_w) [])
              ((y' % tile_h * tile_w + x' % tile_w) * 4)).length = 4 * w := by
        intro y' hy'
        rw [length_flatMap_const _ _ 4
          (fun a ha => hpiece y' hy' a (List.mem_range.mp ha))]
        simp
      rw [show (y * w + x) * 4 + c = y * (4 * w) + (x * 4 + c) by ring]
      rw [getD_flatMap_range _ (4 * w) h y (x * 4 + c) 0
        (fun k hk => hinner k hk) hy (by omega)]
      rw [getD_flatMap_range _ 4 w x c 0
        (fun k hk => hpiece y hy k hk) hx hc]
      exact slice4_getD _ _ c hc
  · rfl

/-- Witness for C4 on the 4 by 4 example with 2 by 2 tiles. -/
theorem C4_witness :
    Image.tiled ⟨.R8, [], .LE, false, [], .Bpp8, ['2'], ['2']⟩
      [0, 0, 0, 0, 1, 1, 1, 1, 2, 2, 2, 2, 3, 3, 3, 3] 4 4 0 =
      .ok ((List.range 4).flatMap fun y =>
        (List.range 4).flatMap fun x =>
          slice4 (([[0, 0, 0, 255, 0, 0, 0, 255, 0, 0, 0, 255, 0, 0, 0, 255],
                    [1, 0, 0, 255, 1, 0, 0, 255, 1, 0, 0, 255, 1, 0, 0, 255],
                    [2, 0, 0, 255, 2, 0, 0, 255, 2, 0, 0, 255, 2, 0, 0, 255],
                    [3, 0, 0, 255, 3, 0, 0, 255, 3, 0, 0, 255, 3, 0, 0, 255]] :
              List (List Nat)).getD (y / 2 * (4 / 2) + x / 2) [])
            ((y % 2 * 2 + x % 2) * 4)) :=
  (C4_tiled_assembly.1 ⟨.R8, [], .LE, false, [], .Bpp8, ['2'], ['2']⟩
    [0, 0, 0, 0, 1, 1, 1, 1, 2, 2, 2, 2, 3, 3, 3, 3] 4 4 0 2 2
    [0, 0, 0, 0, 1, 1, 1, 1, 2, 2, 2, 2, 3, 3, 3, 3]
    [[0, 0, 0, 255, 0, 0, 0, 255, 0, 0, 0, 255, 0, 0, 0, 255],
     [1, 0, 0, 255, 1, 0, 0, 255, 1, 0, 0, 255, 1, 0, 0, 255],
     [2, 0, 0, 255, 2, 0, 0, 255, 2, 0, 0, 255, 2, 0, 0, 255],
     [3, 0, 0, 255, 3, 0, 0, 255, 3, 0, 0, 255, 3, 0, 0, 255]]
    rfl rfl (by norm_num) (by norm_num) rfl rfl rfl rfl).1

/-- C9: a tiled decode whose tile dimensions equal the image dimensions
(one tile covering the whole canvas) produces exactly the result of the
linear decode of the same request, for every source, offset, format,
order, endianness and alpha flag. -/
theorem C9_single_tile_refines_linear (app : App) (file : List Nat) (w h offset : Nat)
    (htw : parse_usize app.tile_width = some w)
    (hth : parse_usize app.tile_height = some h)
    (hw0 : 0 < w) (hh0 : 0 < h) :
    Image.tiled app file w h offset = Image.linear app file w h offset := by
  have hbpc : 0 < app.pixel_format.bytes_per_pixel := bytes_per_pixel_pos _
  have hN : 0 < w * h * app.pixel_format.bytes_per_pixel :=
    Nat.mul_pos (Nat.mul_pos hw0 hh0) hbpc
  simp only [Image.tiled, Image.linear, htw, hth]
  rw [if_neg (by simp [Nat.mod_self]), if_neg (by simp [Nat.mod_self])]
  rw [Nat.div_self hw0, Nat.div_self hh0]
  rw [show w * h * app.pixel_format.bytes_per_pixel * (1 * 1) =
    w * h * app.pixel_format.bytes_per_pixel by ring]
  cases hre : read_exact file offset (w * h * app.pixel_format.bytes_per_pixel)
      "failed to fill pixel data buffer. unexpected end of file" with
  | error e => rfl
  | ok pd =>
    dsimp only
    have hpdlen : pd.length = w * h * app.pixel_format.bytes_per_pixel :=
      read_exact_ok_length _ _ _ _ _ hre
    rw [chunks_exact_single _ _ hN hpdlen]
    cases hfill : fill_rgba app (chunks_exact app.pixel_format.bytes_per_pixel pd) with
    | error e =>
      simp only [decode_tiles, hfill]
    | ok t =>
      simp only [decode_tiles, hfill]
      congr 1
      have htlen : t.length = 4 * (w * h) := by
        have h1 := fill_rgba_ok_length _ _ _ hfill
        rw [chunks_exact_length, hpdlen, Nat.mul_div_cancel _ hbpc] at h1
        exact h1
      have hcong : ∀ y ∈ List.range h,
          ((List.range w).flatMap fun x =>
            slice4 ([t].getD (y / h * 1 + x / w) []) ((y % h * w + x % w) * 4)) =
            (t.drop (y * (w * 4))).take (w * 4) := by
        intro y hy
        have hy' : y < h := List.mem_range.mp hy
        have hcong2 : ∀ x ∈ List.range w,
            slice4 ([t].getD (y / h * 1 + x / w) []) ((y % h * w + x % w) * 4) =
              ((t.drop (y * (w * 4))).drop (x * 4)).take 4 := by
          intro x hx
          have hx' : x < w := List.mem_range.mp hx
          rw [Nat.div_eq_of_lt hy', Nat.div_eq_of_lt hx',
            Nat.mod_eq_of_lt hy', Nat.mod_eq_of_lt hx']
          simp only [Nat.zero_mul, Nat.add_zero, List.getD_cons_zero]
          unfold slice4
          rw [show (y * w + x) * 4 = y * (w * 4) + x * 4 by ring, List.drop_drop]
        rw [List.flatMap_def, List.map_congr_left hcong2, ← List.flatMap_def]
        have hle : w * 4 ≤ (t.drop (y * (w * 4))).length := by
          rw [List.length_drop, htlen]
          have h2 : y + 1 ≤ h := hy'
          have hmul : (y + 1) * (w * 4) ≤ h * (w * 4) := Nat.mul_le_mul_right _ h2
          have heq : (4 : Nat) * (w * h) = h * (w * 4) := by ring
          have hsplit : y * (w * 4) + w * 4 = (y + 1) * (w * 4) := by ring
          omega
        rw [flatMap_slices _ w 4 hle]
      rw [List.flatMap_def, List.map_congr_left hcong, ← List.flatMap_def]
      rw [flatMap_slices t h (w * 4) (by rw [htlen]; exact le_of_eq (by ring))]
      rw [show h * (w * 4) = 4 * (w * h) by ring, ← htlen, List.take_length]

/-- Witness for C9: a 2 by 2 RGBA8888 request with tile size 2 by 2. -/
theorem C9_witness :
    Image.tiled ⟨.RGBA8888, ['r', 'g', 'b', 'a'], .LE, false, [], .Bpp8, ['2'], ['2']⟩
      [1, 2, 3, 4, 5, 6, 7, 8, 9, 10, 11, 12, 13, 14, 15, 16] 2 2 0 =
    Image.linear ⟨.RGBA8888, ['r', 'g', 'b', 'a'], .LE, false, [], .Bpp8, ['2'], ['2']⟩
      [1, 2, 3, 4, 5, 6, 7, 8, 9, 10, 11, 12, 13, 14, 15, 16] 2 2 0 :=
  C9_single_tile_refines_linear _ _ 2 2 0 rfl rfl (by norm_num) (by norm_num)
